import Mathlib

/-!
Verification development for the ATT orchestrator import script
(complete_data_import.py).  The definitions below are a shallow embedding
of the script: the two downstream services (indicator catalog service and
resource service) are modelled through the interfaces the script consumes,
with service responses passed in as explicit data or oracles; the script
itself is translated function by function.
-/

/-- Lowercasing of a string, character by character; embeds the Python
"str.lower" call used on the categorization text (ASCII inputs). -/
def pyLower (s : String) : String :=
  ⟨s.data.map Char.toLower⟩

/-- Substring containment test; embeds the Python "sub in s" operator on
strings: some index i has s[i : i + len sub] equal to sub. -/
def strContainsSub (s sub : String) : Bool :=
  (List.range (s.data.length + 1)).any
    (fun i => (s.data.drop i).take sub.data.length == sub.data)

/-- Suffix test; embeds the Python "str.endswith" call. -/
def strEndsWith (s suf : String) : Bool :=
  suf.data.isSuffixOf s.data

/-- Live-service domain record as read back from GET /domains/: an opaque
id and a name (the join key). -/
structure DomainRecord where
  id : Nat
  name : String
deriving DecidableEq

/-- Live-service indicator record as read back from GET /indicators/: id,
name, and the list of referenced resource identifiers. -/
structure IndicatorRecord where
  id : Nat
  name : String
  resources : List String
deriving DecidableEq

/-- Resource-service record as returned by GET /resources/ (only the id
field is inspected by the script). -/
structure ResourceRecord where
  id : String
deriving DecidableEq

/-- Outcome of one HTTP call: a decoded body, or a failure (non-success
status code or transport error — the script treats both alike). -/
inductive ServiceResp (α : Type) where
  | ok (val : α)
  | err
deriving DecidableEq

/-- One round of the pagination loop in get_all_indicators_with_pagination.
The catalog service is modelled as a list served in slices of 50
(drop skip, take 50); failAt says which request numbers fail (non-success
status or exception).  Returns the accumulated records and the number of
requests issued.  The loop body mirrors the source: a failed request or an
empty page breaks the loop, otherwise the page is appended and skip is
advanced by the page limit. -/
def fetchPages (catalog : List IndicatorRecord) (failAt : Nat → Bool)
    (skip req : Nat) : List IndicatorRecord × Nat :=
  if failAt req then ([], 1)
  else if h : (catalog.drop skip).take 50 = [] then ([], 1)
  else
    ((catalog.drop skip).take 50 ++ (fetchPages catalog failAt (skip + 50) (req + 1)).1,
      (fetchPages catalog failAt (skip + 50) (req + 1)).2 + 1)
termination_by catalog.length - skip
decreasing_by
  have hd : catalog.drop skip ≠ [] := by
    intro hnil
    apply h
    rw [hnil]
    rfl
  have hlt : skip < catalog.length := by
    by_contra hge
    push_neg at hge
    exact hd (List.drop_eq_nil_of_le hge)
  omega

/-- Embeds get_all_indicators_with_pagination: start at skip 0, request 0. -/
def get_all_indicators_with_pagination (catalog : List IndicatorRecord)
    (failAt : Nat → Bool) : List IndicatorRecord × Nat :=
  fetchPages catalog failAt 0 0

/-- Embeds get_existing_domains: a single unpaginated call; a non-success
response or transport error yields the empty list. -/
def get_existing_domains (resp : ServiceResp (List DomainRecord)) : List DomainRecord :=
  match resp with
  | .ok ds => ds
  | .err => []

theorem fetchPages_fail (catalog : List IndicatorRecord) (failAt : Nat → Bool)
    (skip req : Nat) (h : failAt req = true) :
    fetchPages catalog failAt skip req = ([], 1) := by
  rw [fetchPages]
  simp [h]

theorem fetchPages_empty (catalog : List IndicatorRecord) (failAt : Nat → Bool)
    (skip req : Nat) (h : failAt req = false)
    (h2 : (catalog.drop skip).take 50 = []) :
    fetchPages catalog failAt skip req = ([], 1) := by
  rw [fetchPages]
  simp [h, h2]

theorem fetchPages_step (catalog : List IndicatorRecord) (failAt : Nat → Bool)
    (skip req : Nat) (h : failAt req = false)
    (h2 : (catalog.drop skip).take 50 ≠ []) :
    fetchPages catalog failAt skip req =
      ((catalog.drop skip).take 50 ++ (fetchPages catalog failAt (skip + 50) (req + 1)).1,
        (fetchPages catalog failAt (skip + 50) (req + 1)).2 + 1) := by
  rw [fetchPages]
  simp [h, h2]

theorem fetchPages_no_fail (catalog : List IndicatorRecord) :
    ∀ n skip req, catalog.length - skip = n →
    fetchPages catalog (fun _ => false) skip req =
      (catalog.drop skip, (catalog.length - skip + 49) / 50 + 1) := by
  intro n
  induction n using Nat.strong_induction_on with
  | _ n ih =>
    intro skip req hn
    by_cases hemp : (catalog.drop skip).take 50 = []
    · have hd : catalog.drop skip = [] := by
        rcases List.take_eq_nil_iff.mp hemp with h50 | hnil
        · exact absurd h50 (by decide)
        · exact hnil
      have hlen : catalog.length ≤ skip := List.drop_eq_nil_iff.mp hd
      rw [fetchPages_empty catalog (fun _ => false) skip req rfl hemp, hd]
      have hz : catalog.length - skip = 0 := by omega
      rw [hz]
    · have hd : catalog.drop skip ≠ [] := by
        intro hnil
        apply hemp
        rw [hnil]
        rfl
      have hlt : skip < catalog.length := by
        by_contra hge
        push_neg at hge
        exact hd (List.drop_eq_nil_of_le hge)
      rw [fetchPages_step catalog (fun _ => false) skip req rfl hemp]
      rw [ih (catalog.length - (skip + 50)) (by omega) (skip + 50) (req + 1) rfl]
      have hfst : (catalog.drop skip).take 50 ++ catalog.drop (skip + 50) =
          catalog.drop skip := by
        have hdd : catalog.drop (skip + 50) = (catalog.drop skip).drop 50 := by
          rw [List.drop_drop]
        rw [hdd, List.take_append_drop]
      rw [hfst]
      have hcount : (catalog.length - (skip + 50) + 49) / 50 + 1 + 1 =
          (catalog.length - skip + 49) / 50 + 1 := by omega
      rw [hcount]

theorem fetchPages_first_failure (catalog : List IndicatorRecord) (failAt : Nat → Bool) :
    ∀ k skip req, (∀ j, j < k → failAt (req + j) = false) →
    failAt (req + k) = true → skip + 50 * k ≤ catalog.length →
    fetchPages catalog failAt skip req = ((catalog.drop skip).take (50 * k), k + 1) := by
  intro k
  induction k with
  | zero =>
    intro skip req _ h2 _
    have h2' : failAt req = true := by simpa using h2
    rw [fetchPages_fail catalog failAt skip req h2']
    simp
  | succ k ih =>
    intro skip req h1 h2 h3
    have h0 : failAt req = false := by
      have := h1 0 (Nat.succ_pos k)
      simpa using this
    have hlt : skip < catalog.length := by omega
    have hd : catalog.drop skip ≠ [] := by
      intro hnil
      have := List.drop_eq_nil_iff.mp hnil
      omega
    have hemp : (catalog.drop skip).take 50 ≠ [] := by
      intro hnil
      rcases List.take_eq_nil_iff.mp hnil with h50 | hnil'
      · exact absurd h50 (by decide)
      · exact hd hnil'
    rw [fetchPages_step catalog failAt skip req h0 hemp]
    have hrec := ih (skip + 50) (req + 1)
      (fun j hj => by
        have := h1 (j + 1) (by omega)
        simpa [Nat.add_assoc, Nat.add_comm 1 j] using this)
      (by
        have : req + (k + 1) = req + 1 + k := by omega
        rw [← this]
        exact h2)
      (by omega)
    rw [hrec]
    have hfst : (catalog.drop skip).take 50 ++ (catalog.drop (skip + 50)).take (50 * k) =
        (catalog.drop skip).take (50 * (k + 1)) := by
      have hdd : catalog.drop (skip + 50) = (catalog.drop skip).drop 50 := by
        rw [List.drop_drop]
      have hmul : 50 * (k + 1) = 50 + 50 * k := by omega
      rw [hdd, hmul, List.take_add]
    rw [hfst]

/-- C4: over a catalog of N indicators served in pages of at most 50 with
no failing requests, the pagination loop returns exactly the N records and
issues at most ceil(N/50)+1 requests (in Nat arithmetic ceil(N/50) is
(N+49)/50), stopping at the first empty page. -/
theorem pagination_completeness (catalog : List IndicatorRecord) :
    (get_all_indicators_with_pagination catalog (fun _ => false)).1 = catalog ∧
    (get_all_indicators_with_pagination catalog (fun _ => false)).1.length = catalog.length ∧
    (get_all_indicators_with_pagination catalog (fun _ => false)).2 ≤
      (catalog.length + 49) / 50 + 1 := by
  have h := fetchPages_no_fail catalog (catalog.length - 0) 0 0 rfl
  unfold get_all_indicators_with_pagination
  rw [h]
  simp

/-- C5: the state fetchers never propagate an error.  If the first k
requests succeed and request k fails (non-success status or transport
error) while at least 50*k records exist, the indicator fetcher terminates
at that request and returns exactly the records accumulated so far (the
first 50*k records, in k+1 requests); the domain fetcher maps a failed
call to the empty sequence. -/
theorem fetch_error_containment (catalog : List IndicatorRecord)
    (failAt : Nat → Bool) (k : Nat)
    (h1 : ∀ j, j < k → failAt j = false) (h2 : failAt k = true)
    (h3 : 50 * k ≤ catalog.length) :
    get_all_indicators_with_pagination catalog failAt = (catalog.take (50 * k), k + 1) ∧
    get_existing_domains (ServiceResp.err : ServiceResp (List DomainRecord)) = [] := by
  constructor
  · have h := fetchPages_first_failure catalog failAt k 0 0
      (fun j hj => by simpa using h1 j hj) (by simpa using h2) (by omega)
    unfold get_all_indicators_with_pagination
    rw [h]
    simp
  · rfl

/-- Witness for C5: a concrete run over an empty catalog whose very first
request fails returns no records in one request, and the failed domain
call returns the empty list. -/
theorem fetch_error_containment_witness :
    get_all_indicators_with_pagination [] (fun _ => true) = ([], 1) ∧
    get_existing_domains (ServiceResp.err : ServiceResp (List DomainRecord)) = [] := by
  have h := fetch_error_containment [] (fun _ => true) 0
    (fun j hj => absurd hj (Nat.not_lt_zero j)) rfl (by simp)
  simpa using h

/-- Desired-state indicator entry from the domains.json document: name,
numeric external id (json key "id", defaulting to 0 when absent),
categorization text (defaulting to the empty string), and the three nested
characteristics fields. -/
structure IndicatorSpec where
  name : String
  externalId : Nat
  categorization : String
  periodicity : String
  source : String
  scale : String
deriving DecidableEq

/-- Desired-state subdomain entry: a name and its indicator entries. -/
structure SubdomainSpec where
  name : String
  indicators : List IndicatorSpec
deriving DecidableEq

/-- Desired-state domain entry: name, color, image and subdomains. -/
structure DomainSpec where
  name : String
  color : String
  image : String
  subdomains : List SubdomainSpec
deriving DecidableEq

/-- The desired-state document (top-level key "domains"). -/
structure Document where
  domains : List DomainSpec
deriving DecidableEq

/-- In-memory model of the indicator catalog service state: the stored
domain records, the stored indicator records, and the next fresh id the
service will assign.  The service is a collaborator of the script; this
models the interface of section 6 of the spec (creates succeed and assign
a fresh opaque id). -/
structure CatalogState where
  domains : List DomainRecord
  indicators : List IndicatorRecord
  nextId : Nat
deriving DecidableEq

/-- The indicator payload built by import_complete_data before POSTing a
new indicator (field "font" carries the characteristics source text). -/
structure IndicatorPayload where
  name : String
  periodicity : String
  favourites : Nat
  governance : Bool
  description : String
  font : String
  scale : String
deriving DecidableEq

/-- Embeds the payload construction of import_complete_data: favourites is
the external id modulo 5, governance holds when the lowercased
categorization contains "baseline" or "required", the description is the
fixed template, and periodicity, source and scale are copied from the
characteristics. -/
def buildIndicatorPayload (i : IndicatorSpec) (subdomainName : String) : IndicatorPayload :=
  { name := i.name
    periodicity := i.periodicity
    favourites := i.externalId % 5
    governance := strContainsSub (pyLower i.categorization) "baseline" ||
      strContainsSub (pyLower i.categorization) "required"
    description := "Indicator " ++ i.name ++ " from domain " ++ subdomainName
    font := i.source
    scale := i.scale }

/-- Counters accumulated by the indicator-creation loop. -/
structure IndCounts where
  total : Nat
  created : Nat
  skipped : Nat
deriving DecidableEq

/-- Summary counters of one full import run. -/
structure ImportCounts where
  createdDomains : Nat
  totalIndicators : Nat
  createdIndicators : Nat
  skippedIndicators : Nat
deriving DecidableEq

/-- Embeds the domain-creation loop of import_complete_data.  The frozen
name set is computed once before the loop; a desired domain whose name is
in it is skipped, otherwise the domain is created (the service appends a
record under a fresh id) and the name-to-id dict gains the new entry
(cons models dict assignment: the first hit on lookup is the most recent
assignment). -/
def domainPhase (frozen : List String) (st : CatalogState)
    (map : List (String × Nat)) (cd : Nat) :
    List DomainSpec → CatalogState × List (String × Nat) × Nat
  | [] => (st, map, cd)
  | d :: rest =>
    if d.name ∈ frozen then
      domainPhase frozen st map cd rest
    else
      domainPhase frozen
        { st with
          domains := st.domains ++ [⟨st.nextId, d.name⟩],
          nextId := st.nextId + 1 }
        ((d.name, st.nextId) :: map) (cd + 1) rest

/-- Names under which fetched indicators are entered into the
existing-indicator lookup of get_existing_indicators: records whose name
is falsy (the empty string) are not added to the dict. -/
def indicatorLookupNames (inds : List IndicatorRecord) : List String :=
  (inds.filter (fun i => i.name ≠ "")).map (fun i => i.name)

/-- Embeds the innermost indicator loop of import_complete_data over one
subdomain: count the entry, skip it when its name is in the frozen lookup,
otherwise build the payload and create the indicator (the service appends
a record with empty resources under a fresh id). -/
def indicatorLoop (frozen : List String) (subName : String) (st : CatalogState)
    (c : IndCounts) : List IndicatorSpec → CatalogState × IndCounts
  | [] => (st, c)
  | i :: rest =>
    if i.name ∈ frozen then
      indicatorLoop frozen subName st
        { c with total := c.total + 1, skipped := c.skipped + 1 } rest
    else
      indicatorLoop frozen subName
        { st with
          indicators := st.indicators ++ [⟨st.nextId, (buildIndicatorPayload i subName).name, []⟩],
          nextId := st.nextId + 1 }
        { c with total := c.total + 1, created := c.created + 1 } rest

/-- Embeds the subdomain loop of import_complete_data. -/
def subdomainLoop (frozen : List String) (st : CatalogState) (c : IndCounts) :
    List SubdomainSpec → CatalogState × IndCounts
  | [] => (st, c)
  | s :: rest =>
    subdomainLoop frozen (indicatorLoop frozen s.name st c s.indicators).1
      (indicatorLoop frozen s.name st c s.indicators).2 rest

/-- Embeds the outer indicator-creation loop of import_complete_data: a
desired domain whose name has no id in the dict is skipped entirely,
otherwise its subdomains are processed. -/
def domainIndLoop (frozen : List String) (map : List (String × Nat))
    (st : CatalogState) (c : IndCounts) :
    List DomainSpec → CatalogState × IndCounts
  | [] => (st, c)
  | d :: rest =>
    match List.lookup d.name map with
    | none => domainIndLoop frozen map st c rest
    | some _ =>
      domainIndLoop frozen map (subdomainLoop frozen st c d.subdomains).1
        (subdomainLoop frozen st c d.subdomains).2 rest

/-- Embeds one run of import_complete_data over the in-memory catalog
service: build the frozen existing-domain name set and the name-to-id
dict, run the domain loop, re-fetch all indicators into the frozen
existing-indicator lookup, run the indicator loops, and return the final
service state with the summary counters. -/
def runImport (doc : Document) (st0 : CatalogState) : CatalogState × ImportCounts :=
  let frozenDomains := st0.domains.map (fun d => d.name)
  let map0 := st0.domains.foldl (fun m d => (d.name, d.id) :: m) []
  let r1 := domainPhase frozenDomains st0 map0 0 doc.domains
  let frozenInds := indicatorLookupNames r1.1.indicators
  let r2 := domainIndLoop frozenInds r1.2.1 r1.1 ⟨0, 0, 0⟩ doc.domains
  (r2.1, ⟨r1.2.2, r2.2.total, r2.2.created, r2.2.skipped⟩)

/-- Embeds the return value of import_complete_data: true exactly when at
least one indicator was newly created in this run. -/
def import_complete_data (doc : Document) (st0 : CatalogState) : Bool :=
  decide (0 < (runImport doc st0).2.createdIndicators)

/-- Embeds the exit behavior of main: exit 1 when the health precheck
fails, exit 1 when import_complete_data returns false, and exit 0
otherwise (the resource backfill outcome does not change the exit code). -/
def mainExitCode (healthOk : Bool) (doc : Document) (st0 : CatalogState) : Nat :=
  if healthOk then (if import_complete_data doc st0 then 0 else 1) else 1

/-- C3: the derived indicator payload has favourites equal to the numeric
external id modulo 5, governance exactly when the lowercased
categorization contains "baseline" or "required", the fixed description
template over the indicator and subdomain names, and periodicity, source
(stored in the font field) and scale copied verbatim; in particular the
GDP example from the spec scenario yields favourites 2, governance true
and description "Indicator GDP from domain Trade". -/
theorem indicator_payload_derivation (i : IndicatorSpec) (sub : String) :
    (buildIndicatorPayload i sub).favourites = i.externalId % 5 ∧
    ((buildIndicatorPayload i sub).governance = true ↔
      (strContainsSub (pyLower i.categorization) "baseline" = true ∨
        strContainsSub (pyLower i.categorization) "required" = true)) ∧
    (buildIndicatorPayload i sub).description =
      "Indicator " ++ i.name ++ " from domain " ++ sub ∧
    (buildIndicatorPayload i sub).periodicity = i.periodicity ∧
    (buildIndicatorPayload i sub).font = i.source ∧
    (buildIndicatorPayload i sub).scale = i.scale ∧
    buildIndicatorPayload ⟨"GDP", 7, "Required KPI", "annual", "WorldBank", "billions"⟩
        "Trade" =
      ⟨"GDP", "annual", 2, true, "Indicator GDP from domain Trade", "WorldBank",
        "billions"⟩ := by
  refine ⟨rfl, ?_, rfl, rfl, rfl, rfl, by decide⟩
  simp [buildIndicatorPayload]

/-- Desired-state document of the spec scenario: domain Economy, subdomain
Trade, indicator GDP. -/
def docGDP : Document :=
  ⟨[⟨"Economy", "#000000", "",
    [⟨"Trade", [⟨"GDP", 7, "Required KPI", "annual", "WorldBank", "billions"⟩]⟩]⟩]⟩

/-- Catalog state in which the GDP document is fully present already. -/
def stGDPFull : CatalogState :=
  ⟨[⟨1, "Economy"⟩], [⟨2, "GDP", ["res1"]⟩], 3⟩

/-- Counterexample to C1 as stated: with a healthy service and a desired
document whose every domain and indicator already exists (the run skips
one indicator and creates nothing), the process exits with status 1, not
0: the code returns success only when created_indicators is positive, and
confirmed-present entities do not count. -/
theorem exit_code_counterexample :
    (runImport docGDP stGDPFull).2.skippedIndicators = 1 ∧
    (runImport docGDP stGDPFull).2.createdIndicators = 0 ∧
    (runImport docGDP stGDPFull).2.createdDomains = 0 ∧
    mainExitCode true docGDP stGDPFull = 1 ∧
    ¬ mainExitCode true docGDP stGDPFull = 0 := by
  decide

/-- C1 amended: the process exits 0 exactly when the health precheck
succeeds and the import newly creates at least one indicator, and exits 1
exactly when the precheck fails or the import creates zero indicators —
including runs in which every desired entity already exists and is
skipped. -/
theorem exit_code_amended (healthOk : Bool) (doc : Document) (st0 : CatalogState) :
    (mainExitCode healthOk doc st0 = 0 ↔
      (healthOk = true ∧ 0 < (runImport doc st0).2.createdIndicators)) ∧
    (mainExitCode healthOk doc st0 = 1 ↔
      (healthOk = false ∨ (runImport doc st0).2.createdIndicators = 0)) := by
  cases healthOk with
  | false => simp [mainExitCode]
  | true =>
    by_cases h : 0 < (runImport doc st0).2.createdIndicators
    · simp [mainExitCode, import_complete_data, h]
      omega
    · simp [mainExitCode, import_complete_data, h]
      omega

theorem domainPhase_indicators (frozen : List String) :
    ∀ specs st map cd,
      ((domainPhase frozen st map cd specs).1).indicators = st.indicators := by
  intro specs
  induction specs with
  | nil => intro st map cd; rfl
  | cons d rest ih =>
    intro st map cd
    by_cases h : d.name ∈ frozen
    · simp [domainPhase, h, ih]
    · simp [domainPhase, h, ih]

theorem domainPhase_domain_names_mono (frozen : List String) :
    ∀ specs st map cd n, n ∈ st.domains.map (fun d => d.name) →
      n ∈ ((domainPhase frozen st map cd specs).1).domains.map (fun d => d.name) := by
  intro specs
  induction specs with
  | nil => intro st map cd n hn; exact hn
  | cons d rest ih =>
    intro st map cd n hn
    by_cases h : d.name ∈ frozen
    · simp only [domainPhase, h, if_true]
      exact ih st map cd n hn
    · simp only [domainPhase, h, if_false]
      apply ih
      simp only [List.map_append]
      exact List.mem_append_left _ hn

theorem domainPhase_covers (frozen : List String) :
    ∀ specs st map cd,
      (∀ n, n ∈ frozen → n ∈ st.domains.map (fun d => d.name)) →
      ∀ d, d ∈ specs →
        d.name ∈ ((domainPhase frozen st map cd specs).1).domains.map (fun d => d.name) := by
  intro specs
  induction specs with
  | nil => intro st map cd _ d hd; exact absurd hd (List.not_mem_nil d)
  | cons d0 rest ih =>
    intro st map cd hf d hd
    rcases List.mem_cons.mp hd with rfl | hrest
    · by_cases h : d.name ∈ frozen
      · simp only [domainPhase, h, if_true]
        exact domainPhase_domain_names_mono frozen rest st map cd d.name (hf d.name h)
      · simp only [domainPhase, h, if_false]
        apply domainPhase_domain_names_mono
        simp [List.map_append]
    · by_cases h : d0.name ∈ frozen
      · simp only [domainPhase, h, if_true]
        exact ih st map cd hf d hrest
      · simp only [domainPhase, h, if_false]
        apply ih _ _ _ _ d hrest
        intro n hn
        simp only [List.map_append]
        exact List.mem_append_left _ (hf n hn)

theorem lookup_cons_isSome (m : List (String × Nat)) (k n : String) (v : Nat)
    (h : (List.lookup n m).isSome) :
    (List.lookup n ((k, v) :: m)).isSome := by
  simp only [List.lookup]
  by_cases hk : n == k
  · simp [hk]
  · simp only [hk, if_false]
    exact h

theorem domainPhase_map_mono (frozen : List String) :
    ∀ specs st map cd n, (List.lookup n map).isSome →
      (List.lookup n (domainPhase frozen st map cd specs).2.1).isSome := by
  intro specs
  induction specs with
  | nil => intro st map cd n hn; exact hn
  | cons d rest ih =>
    intro st map cd n hn
    by_cases h : d.name ∈ frozen
    · simp only [domainPhase, h, if_true]
      exact ih st map cd n hn
    · simp only [domainPhase, h, if_false]
      exact ih _ _ _ n (lookup_cons_isSome map d.name n st.nextId hn)

theorem domainPhase_map_covers (frozen : List String) :
    ∀ specs st map cd,
      (∀ n, n ∈ frozen → (List.lookup n map).isSome) →
      ∀ d, d ∈ specs →
        (List.lookup d.name (domainPhase frozen st map cd specs).2.1).isSome := by
  intro specs
  induction specs with
  | nil => intro st map cd _ d hd; exact absurd hd (List.not_mem_nil d)
  | cons d0 rest ih =>
    intro st map cd hf d hd
    rcases List.mem_cons.mp hd with rfl | hrest
    · by_cases h : d.name ∈ frozen
      · simp only [domainPhase, h, if_true]
        exact domainPhase_map_mono frozen rest st map cd d.name (hf d.name h)
      · simp only [domainPhase, h, if_false]
        apply domainPhase_map_mono
        simp [List.lookup]
    · by_cases h : d0.name ∈ frozen
      · simp only [domainPhase, h, if_true]
        exact ih st map cd hf d hrest
      · simp only [domainPhase, h, if_false]
        apply ih _ _ _ _ d hrest
        intro n hn
        exact lookup_cons_isSome map d0.name n st.nextId (hf n hn)

theorem init_map_covers :
    ∀ (ds : List DomainRecord) (acc : List (String × Nat)) (n : String),
      (n ∈ ds.map (fun d => d.name) ∨ (List.lookup n acc).isSome) →
      (List.lookup n (ds.foldl (fun m d => (d.name, d.id) :: m) acc)).isSome := by
  intro ds
  induction ds with
  | nil =>
    intro acc n hn
    rcases hn with hn | hn
    · exact absurd hn (by simp)
    · exact hn
  | cons d rest ih =>
    intro acc n hn
    simp only [List.foldl_cons]
    apply ih
    rcases hn with hn | hn
    · simp only [List.map_cons, List.mem_cons] at hn
      rcases hn with rfl | hr
      · right
        simp [List.lookup]
      · left
        exact hr
    · right
      exact lookup_cons_isSome acc d.name n d.id hn

theorem domainPhase_all_frozen (frozen : List String) :
    ∀ specs st map cd, (∀ d, d ∈ specs → d.name ∈ frozen) →
      domainPhase frozen st map cd specs = (st, map, cd) := by
  intro specs
  induction specs with
  | nil => intro st map cd _; rfl
  | cons d rest ih =>
    intro st map cd hf
    have h : d.name ∈ frozen := hf d (List.mem_cons_self d rest)
    simp only [domainPhase, h, if_true]
    exact ih st map cd (fun d' hd' => hf d' (List.mem_cons_of_mem d hd'))

theorem indicatorLoop_domains (frozen : List String) (subName : String) :
    ∀ specs st c, ((indicatorLoop frozen subName st c specs).1).domains = st.domains := by
  intro specs
  induction specs with
  | nil => intro st c; rfl
  | cons i rest ih =>
    intro st c
    by_cases h : i.name ∈ frozen
    · simp [indicatorLoop, h, ih]
    · simp [indicatorLoop, h, ih]

theorem indicatorLoop_ind_names_mono (frozen : List String) (subName : String) :
    ∀ specs st c n, n ∈ st.indicators.map (fun i => i.name) →
      n ∈ ((indicatorLoop frozen subName st c specs).1).indicators.map (fun i => i.name) := by
  intro specs
  induction specs with
  | nil => intro st c n hn; exact hn
  | cons i rest ih =>
    intro st c n hn
    by_cases h : i.name ∈ frozen
    · simp only [indicatorLoop, h, if_true]
      exact ih _ _ n hn
    · simp only [indicatorLoop, h, if_false]
      apply ih
      simp only [List.map_append]
      exact List.mem_append_left _ hn

theorem indicatorLoop_covers (frozen : List String) (subName : String) :
    ∀ specs st c i, i ∈ specs →
      i.name ∈ frozen ∨
      i.name ∈ ((indicatorLoop frozen subName st c specs).1).indicators.map
        (fun i => i.name) := by
  intro specs
  induction specs with
  | nil => intro st c i hi; exact absurd hi (List.not_mem_nil i)
  | cons i0 rest ih =>
    intro st c i hi
    rcases List.mem_cons.mp hi with rfl | hrest
    · by_cases h : i.name ∈ frozen
      · left; exact h
      · right
        simp only [indicatorLoop, h, if_false]
        apply indicatorLoop_ind_names_mono
        simp [buildIndicatorPayload, List.map_append]
    · by_cases h : i0.name ∈ frozen
      · simp only [indicatorLoop, h, if_true]
        exact ih _ _ i hrest
      · simp only [indicatorLoop, h, if_false]
        exact ih _ _ i hrest

theorem indicatorLoop_all_frozen (frozen : List String) (subName : String) :
    ∀ specs st c, (∀ i, i ∈ specs → i.name ∈ frozen) →
      (indicatorLoop frozen subName st c specs).1 = st ∧
      ((indicatorLoop frozen subName st c specs).2).created = c.created := by
  intro specs
  induction specs with
  | nil => intro st c _; exact ⟨rfl, rfl⟩
  | cons i rest ih =>
    intro st c hf
    have h : i.name ∈ frozen := hf i (List.mem_cons_self i rest)
    simp only [indicatorLoop, h, if_true]
    exact ih st _ (fun i' hi' => hf i' (List.mem_cons_of_mem i hi'))

theorem subdomainLoop_domains (frozen : List String) :
    ∀ subs st c, ((subdomainLoop frozen st c subs).1).domains = st.domains := by
  intro subs
  induction subs with
  | nil => intro st c; rfl
  | cons s rest ih =>
    intro st c
    simp only [subdomainLoop]
    rw [ih, indicatorLoop_domains]

theorem subdomainLoop_ind_names_mono (frozen : List String) :
    ∀ subs st c n, n ∈ st.indicators.map (fun i => i.name) →
      n ∈ ((subdomainLoop frozen st c subs).1).indicators.map (fun i => i.name) := by
  intro subs
  induction subs with
  | nil => intro st c n hn; exact hn
  | cons s rest ih =>
    intro st c n hn
    simp only [subdomainLoop]
    exact ih _ _ n (indicatorLoop_ind_names_mono frozen s.name s.indicators st c n hn)

theorem subdomainLoop_covers (frozen : List String) :
    ∀ subs st c s i, s ∈ subs → i ∈ s.indicators →
      i.name ∈ frozen ∨
      i.name ∈ ((subdomainLoop frozen st c subs).1).indicators.map (fun i => i.name) := by
  intro subs
  induction subs with
  | nil => intro st c s i hs _; exact absurd hs (List.not_mem_nil s)
  | cons s0 rest ih =>
    intro st c s i hs hi
    rcases List.mem_cons.mp hs with rfl | hrest
    · rcases indicatorLoop_covers frozen s.name s.indicators st c i hi with h | h
      · left; exact h
      · right
        simp only [subdomainLoop]
        exact subdomainLoop_ind_names_mono frozen rest _ _ i.name h
    · simp only [subdomainLoop]
      exact ih _ _ s i hrest hi

theorem subdomainLoop_all_frozen (frozen : List String) :
    ∀ subs st c, (∀ s i, s ∈ subs → i ∈ s.indicators → i.name ∈ frozen) →
      (subdomainLoop frozen st c subs).1 = st ∧
      ((subdomainLoop frozen st c subs).2).created = c.created := by
  intro subs
  induction subs with
  | nil => intro st c _; exact ⟨rfl, rfl⟩
  | cons s rest ih =>
    intro st c hf
    simp only [subdomainLoop]
    have hstep := indicatorLoop_all_frozen frozen s.name s.indicators st c
      (fun i hi => hf s i (List.mem_cons_self s rest) hi)
    rw [hstep.1]
    have hrest := ih st (indicatorLoop frozen s.name st c s.indicators).2
      (fun s' i' hs' hi' => hf s' i' (List.mem_cons_of_mem s hs') hi')
    rw [hrest.1, hrest.2, hstep.2]
    exact ⟨rfl, rfl⟩

theorem domainIndLoop_domains (frozen : List String) (map : List (String × Nat)) :
    ∀ specs st c, ((domainIndLoop frozen map st c specs).1).domains = st.domains := by
  intro specs
  induction specs with
  | nil => intro st c; rfl
  | cons d rest ih =>
    intro st c
    cases hl : List.lookup d.name map with
    | none => simp only [domainIndLoop, hl]; exact ih st c
    | some v =>
      simp only [domainIndLoop, hl]
      rw [ih, subdomainLoop_domains]

theorem domainIndLoop_ind_names_mono (frozen : List String) (map : List (String × Nat)) :
    ∀ specs st c n, n ∈ st.indicators.map (fun i => i.name) →
      n ∈ ((domainIndLoop frozen map st c specs).1).indicators.map (fun i => i.name) := by
  intro specs
  induction specs with
  | nil => intro st c n hn; exact hn
  | cons d rest ih =>
    intro st c n hn
    cases hl : List.lookup d.name map with
    | none => simp only [domainIndLoop, hl]; exact ih st c n hn
    | some v =>
      simp only [domainIndLoop, hl]
      exact ih _ _ n (subdomainLoop_ind_names_mono frozen d.subdomains st c n hn)

theorem domainIndLoop_covers (frozen : List String) (map : List (String × Nat)) :
    ∀ specs st c,
      (∀ d, d ∈ specs → (List.lookup d.name map).isSome) →
      ∀ d s i, d ∈ specs → s ∈ d.subdomains → i ∈ s.indicators →
        i.name ∈ frozen ∨
        i.name ∈ ((domainIndLoop frozen map st c specs).1).indicators.map
          (fun i => i.name) := by
  intro specs
  induction specs with
  | nil => intro st c _ d s i hd _ _; exact absurd hd (List.not_mem_nil d)
  | cons d0 rest ih =>
    intro st c hm d s i hd hs hi
    rcases List.mem_cons.mp hd with rfl | hrest
    · have hsome := hm d (List.mem_cons_self d rest)
      cases hl : List.lookup d.name map with
      | none => rw [hl] at hsome; exact absurd hsome (by simp)
      | some v =>
        simp only [domainIndLoop, hl]
        rcases subdomainLoop_covers frozen d.subdomains st c s i hs hi with h | h
        · left; exact h
        · right
          exact domainIndLoop_ind_names_mono frozen map rest _ _ i.name h
    · cases hl : List.lookup d0.name map with
      | none =>
        simp only [domainIndLoop, hl]
        exact ih st c (fun d' hd' => hm d' (List.mem_cons_of_mem d0 hd')) d s i hrest hs hi
      | some v =>
        simp only [domainIndLoop, hl]
        exact ih _ _ (fun d' hd' => hm d' (List.mem_cons_of_mem d0 hd')) d s i hrest hs hi

theorem domainIndLoop_all_frozen (frozen : List String) (map : List (String × Nat)) :
    ∀ specs st c,
      (∀ d s i, d ∈ specs → s ∈ d.subdomains → i ∈ s.indicators → i.name ∈ frozen) →
      (domainIndLoop frozen map st c specs).1 = st ∧
      ((domainIndLoop frozen map st c specs).2).created = c.created := by
  intro specs
  induction specs with
  | nil => intro st c _; exact ⟨rfl, rfl⟩
  | cons d rest ih =>
    intro st c hf
    cases hl : List.lookup d.name map with
    | none =>
      simp only [domainIndLoop, hl]
      exact ih st c (fun d' s' i' hd' => hf d' s' i' (List.mem_cons_of_mem d hd'))
    | some v =>
      simp only [domainIndLoop, hl]
      have hstep := subdomainLoop_all_frozen frozen d.subdomains st c
        (fun s' i' hs' hi' => hf d s' i' (List.mem_cons_self d rest) hs' hi')
      rw [hstep.1]
      have hrest := ih st (subdomainLoop frozen st c d.subdomains).2
        (fun d' s' i' hd' => hf d' s' i' (List.mem_cons_of_mem d hd'))
      rw [hrest.1, hrest.2, hstep.2]
      exact ⟨rfl, rfl⟩

theorem mem_indicatorLookupNames (inds : List IndicatorRecord) (n : String)
    (hne : n ≠ "") (hn : n ∈ inds.map (fun i => i.name)) :
    n ∈ indicatorLookupNames inds := by
  simp only [List.mem_map] at hn
  rcases hn with ⟨i, hi, rfl⟩
  simp only [indicatorLookupNames, List.mem_map]
  refine ⟨i, ?_, rfl⟩
  simp only [List.mem_filter]
  exact ⟨hi, by simpa using hne⟩

theorem indicatorLookupNames_sub (inds : List IndicatorRecord) (n : String)
    (hn : n ∈ indicatorLookupNames inds) : n ∈ inds.map (fun i => i.name) := by
  simp only [indicatorLookupNames, List.mem_map] at hn
  rcases hn with ⟨i, hi, rfl⟩
  simp only [List.mem_filter] at hi
  exact List.mem_map.mpr ⟨i, hi.1, rfl⟩

/-- All indicator entries of a desired-state document, in document order. -/
def allIndicatorSpecs (doc : Document) : List IndicatorSpec :=
  (doc.domains.map (fun d => (d.subdomains.map (fun s => s.indicators)).flatten)).flatten

theorem mem_allIndicatorSpecs (doc : Document) (d : DomainSpec) (s : SubdomainSpec)
    (i : IndicatorSpec) (hd : d ∈ doc.domains) (hs : s ∈ d.subdomains)
    (hi : i ∈ s.indicators) : i ∈ allIndicatorSpecs doc := by
  simp only [allIndicatorSpecs, List.mem_flatten, List.mem_map]
  refine ⟨(d.subdomains.map (fun s => s.indicators)).flatten, ⟨d, hd, rfl⟩, ?_⟩
  simp only [List.mem_flatten, List.mem_map]
  exact ⟨s.indicators, ⟨s, hs, rfl⟩, hi⟩

theorem runImport_state_covers (doc : Document) (st0 : CatalogState) :
    (∀ d, d ∈ doc.domains →
      d.name ∈ (runImport doc st0).1.domains.map (fun d => d.name)) ∧
    (∀ d s i, d ∈ doc.domains → s ∈ d.subdomains → i ∈ s.indicators →
      i.name ∈ (runImport doc st0).1.indicators.map (fun i => i.name)) := by
  simp only [runImport]
  set frozenD := st0.domains.map (fun d => d.name) with hfz
  set map0 := st0.domains.foldl (fun m d => (d.name, d.id) :: m) ([] : List (String × Nat))
    with hm0
  set A := domainPhase frozenD st0 map0 0 doc.domains with hA
  constructor
  · intro d hd
    rw [domainIndLoop_domains]
    exact domainPhase_covers frozenD doc.domains st0 map0 0 (fun n hn => hn) d hd
  · intro d s i hd hs hi
    have hf0 : ∀ n, n ∈ frozenD → (List.lookup n map0).isSome := by
      intro n hn
      exact init_map_covers st0.domains [] n (Or.inl hn)
    have hm : ∀ d', d' ∈ doc.domains → (List.lookup d'.name A.2.1).isSome := by
      intro d' hd'
      exact domainPhase_map_covers frozenD doc.domains st0 map0 0 hf0 d' hd'
    rcases domainIndLoop_covers (indicatorLookupNames A.1.indicators) A.2.1 doc.domains
        A.1 ⟨0, 0, 0⟩ hm d s i hd hs hi with h | h
    · exact domainIndLoop_ind_names_mono (indicatorLookupNames A.1.indicators) A.2.1
        doc.domains A.1 ⟨0, 0, 0⟩ i.name (indicatorLookupNames_sub A.1.indicators i.name h)
    · exact h

/-- Desired document with one domain D, one subdomain S, and a single
indicator whose name is the empty string. -/
def docEmptyName : Document :=
  ⟨[⟨"D", "#000000", "", [⟨"S", [⟨"", 3, "misc", "annual", "src", "unit"⟩]⟩]⟩]⟩

/-- An empty catalog service state. -/
def stEmpty : CatalogState := ⟨[], [], 1⟩

/-- Counterexample to C7 as stated: the desired document with the single
domain D, subdomain S and one indicator whose name is the empty string has
pairwise-distinct domain and indicator names, yet the second run against
the unchanged service re-creates the indicator (the existing-indicator
lookup drops falsy names), so the second run creates one indicator and the
live state grows again instead of staying identical. -/
theorem import_idempotent_counterexample :
    List.Pairwise (fun a b => a.name ≠ b.name) docEmptyName.domains ∧
    List.Pairwise (fun a b => a.name ≠ b.name) (allIndicatorSpecs docEmptyName) ∧
    (runImport docEmptyName stEmpty).2.createdIndicators = 1 ∧
    (runImport docEmptyName (runImport docEmptyName stEmpty).1).2.createdIndicators = 1 ∧
    (runImport docEmptyName (runImport docEmptyName stEmpty).1).1 ≠
      (runImport docEmptyName stEmpty).1 := by
  decide

/-- C7 amended: for a desired-state document with pairwise-distinct domain
names and pairwise-distinct, nonempty indicator names, a second full run
of the import against the unchanged services creates zero domains and zero
indicators and leaves the live state exactly as the first run left it. -/
theorem import_idempotent (doc : Document) (st0 : CatalogState)
    (_hd : List.Pairwise (fun a b => a.name ≠ b.name) doc.domains)
    (_hi : List.Pairwise (fun a b => a.name ≠ b.name) (allIndicatorSpecs doc))
    (hne : ∀ i, i ∈ allIndicatorSpecs doc → i.name ≠ "") :
    (runImport doc (runImport doc st0).1).1 = (runImport doc st0).1 ∧
    (runImport doc (runImport doc st0).1).2.createdDomains = 0 ∧
    (runImport doc (runImport doc st0).1).2.createdIndicators = 0 := by
  obtain ⟨hcovD, hcovI⟩ := runImport_state_covers doc st0
  generalize hst1 : (runImport doc st0).1 = st1 at hcovD hcovI ⊢
  simp only [runImport]
  rw [domainPhase_all_frozen (st1.domains.map (fun d => d.name)) doc.domains st1
    (st1.domains.foldl (fun m d => (d.name, d.id) :: m) []) 0 hcovD]
  have hiall : ∀ d s i, d ∈ doc.domains → s ∈ d.subdomains → i ∈ s.indicators →
      i.name ∈ indicatorLookupNames st1.indicators := by
    intro d s i hds hss his
    exact mem_indicatorLookupNames st1.indicators i.name
      (hne i (mem_allIndicatorSpecs doc d s i hds hss his)) (hcovI d s i hds hss his)
  have h2 := domainIndLoop_all_frozen (indicatorLookupNames st1.indicators)
    (st1.domains.foldl (fun m d => (d.name, d.id) :: m) []) doc.domains st1
    ⟨0, 0, 0⟩ hiall
  exact ⟨h2.1, rfl, h2.2⟩

/-- Witness for C7: the GDP document run twice from an empty service:
the second run changes nothing and creates nothing. -/
theorem import_idempotent_witness :
    List.Pairwise (fun a b => a.name ≠ b.name) docGDP.domains ∧
    List.Pairwise (fun a b => a.name ≠ b.name) (allIndicatorSpecs docGDP) ∧
    (∀ i, i ∈ allIndicatorSpecs docGDP → i.name ≠ "") ∧
    ((runImport docGDP (runImport docGDP stEmpty).1).1 = (runImport docGDP stEmpty).1 ∧
      (runImport docGDP (runImport docGDP stEmpty).1).2.createdDomains = 0 ∧
      (runImport docGDP (runImport docGDP stEmpty).1).2.createdIndicators = 0) :=
  ⟨by decide, by decide, by decide,
    import_idempotent docGDP stEmpty (by decide) (by decide) (by decide)⟩

/-- Embeds the should_create_new decision of add_resources_to_all_indicators
for one indicator, given its current resources and the response the
resource-service listing call would return.  An empty resources list falls
through the nonempty guard straight to creation; a singleton equal to the
sentinel "string" or ending in "_resource" is replaced; otherwise the
first entry is looked up in the full resource listing: absence, a
non-success response, or an exception all yield true, and a confirmed
member yields false (skip). -/
def should_create_new (resources : List String)
    (listingResp : ServiceResp (List ResourceRecord)) : Bool :=
  match resources with
  | [] => true
  | r0 :: _ =>
    if resources.length == 1 && r0 == "string" then true
    else if resources.length == 1 && strEndsWith r0 "_resource" then true
    else
      match listingResp with
      | .ok l => !(l.any (fun r => r.id == r0))
      | .err => true

/-- True when deciding this resources list issues a GET on the resource
listing (the membership branch of should_create_new): a nonempty list that
is neither the sentinel singleton nor the synthetic-suffix singleton. -/
def usesListing (resources : List String) : Bool :=
  match resources with
  | [] => false
  | r0 :: _ =>
    !(resources.length == 1 && r0 == "string") &&
      !(resources.length == 1 && strEndsWith r0 "_resource")

/-- Responses the two services give during a backfill pass, indexed by how
many calls of that kind were made before: the n-th resource-listing fetch,
the n-th resource creation (some id, or a failure), and the n-th link
write (success flag). -/
structure BackfillOracle where
  listing : Nat → ServiceResp (List ResourceRecord)
  createRes : Nat → Option String
  linkOk : Nat → Bool

/-- Running state of a backfill pass: the catalog indicator records after
the indicators processed so far (a successful link write appends the new
resource id to the indicator record, per the add-resource interface), the
three counters printed in the summary, and the number of calls of each
kind issued so far. -/
structure PassState where
  indicators : List IndicatorRecord
  totalInd : Nat
  updatedInd : Nat
  totalRes : Nat
  listingCalls : Nat
  createCalls : Nat
  linkCalls : Nat
deriving DecidableEq

/-- Embeds one iteration of the loop in add_resources_to_all_indicators:
count the indicator, decide should_create_new (issuing a listing fetch
exactly when the membership branch runs), skip when false; when true,
create a resource in the resource service, and if that returned an id,
issue one link write; only a successful link write increments the
updated-indicators and resources-created counters and records the new
reference on the indicator. -/
def stepIndicator (o : BackfillOracle) (st : PassState) (ind : IndicatorRecord) :
    PassState :=
  let st1 : PassState :=
    { st with
      totalInd := st.totalInd + 1,
      listingCalls := st.listingCalls + (if usesListing ind.resources then 1 else 0) }
  if should_create_new ind.resources (o.listing st.listingCalls) then
    match o.createRes st1.createCalls with
    | none =>
      { st1 with
        createCalls := st1.createCalls + 1,
        indicators := st1.indicators ++ [ind] }
    | some rid =>
      if o.linkOk st1.linkCalls then
        { st1 with
          createCalls := st1.createCalls + 1,
          linkCalls := st1.linkCalls + 1,
          updatedInd := st1.updatedInd + 1,
          totalRes := st1.totalRes + 1,
          indicators := st1.indicators ++ [{ ind with resources := ind.resources ++ [rid] }] }
      else
        { st1 with
          createCalls := st1.createCalls + 1,
          linkCalls := st1.linkCalls + 1,
          indicators := st1.indicators ++ [ind] }
  else
    { st1 with indicators := st1.indicators ++ [ind] }

/-- The pass state before any indicator is processed. -/
def passInit : PassState := ⟨[], 0, 0, 0, 0, 0, 0⟩

/-- Embeds add_resources_to_all_indicators over an already-fetched
indicator list: an empty list returns False immediately; otherwise every
indicator is processed in order and the pass returns True exactly when at
least one indicator was updated. -/
def add_resources_to_all_indicators (o : BackfillOracle)
    (inds : List IndicatorRecord) : PassState × Bool :=
  if inds = [] then (passInit, false)
  else
    (inds.foldl (stepIndicator o) passInit,
      decide (0 < (inds.foldl (stepIndicator o) passInit).updatedInd))

theorem stepIndicator_updated_totalRes (o : BackfillOracle) (st : PassState)
    (ind : IndicatorRecord) (h : st.updatedInd = st.totalRes) :
    (stepIndicator o st ind).updatedInd = (stepIndicator o st ind).totalRes := by
  by_cases h1 : should_create_new ind.resources (o.listing st.listingCalls)
  · simp only [stepIndicator, h1, if_true]
    cases hc : o.createRes st.createCalls with
    | none => simpa using h
    | some rid =>
      by_cases hl : o.linkOk st.linkCalls
      · simp [hc, hl, h]
      · simp [hc, hl, h]
  · simp only [stepIndicator, h1, if_false]
    simpa using h

theorem stepIndicator_listingCalls (o : BackfillOracle) (st : PassState)
    (ind : IndicatorRecord) :
    (stepIndicator o st ind).listingCalls =
      st.listingCalls + (if usesListing ind.resources then 1 else 0) := by
  by_cases h1 : should_create_new ind.resources (o.listing st.listingCalls)
  · simp only [stepIndicator, h1, if_true]
    cases hc : o.createRes st.createCalls with
    | none => simp
    | some rid =>
      by_cases hl : o.linkOk st.linkCalls
      · simp [hc, hl]
      · simp [hc, hl]
  · simp only [stepIndicator, h1, if_false]
    simp

theorem foldl_updated_totalRes (o : BackfillOracle) :
    ∀ (inds : List IndicatorRecord) (st : PassState), st.updatedInd = st.totalRes →
      (inds.foldl (stepIndicator o) st).updatedInd =
        (inds.foldl (stepIndicator o) st).totalRes := by
  intro inds
  induction inds with
  | nil => intro st h; exact h
  | cons i rest ih =>
    intro st h
    simp only [List.foldl_cons]
    exact ih (stepIndicator o st i) (stepIndicator_updated_totalRes o st i h)

theorem foldl_listingCalls (o : BackfillOracle) :
    ∀ (inds : List IndicatorRecord) (st : PassState),
      (inds.foldl (stepIndicator o) st).listingCalls =
        st.listingCalls + inds.countP (fun i => usesListing i.resources) := by
  intro inds
  induction inds with
  | nil => intro st; simp
  | cons i rest ih =>
    intro st
    simp only [List.foldl_cons]
    rw [ih (stepIndicator o st i), stepIndicator_listingCalls o st i, List.countP_cons]
    by_cases h : usesListing i.resources
    · simp [h]; omega
    · simp [h]

/-- C9: in every backfill-pass summary the updated-indicators counter
equals the resources-created counter: both are incremented together,
only on a successful link write, so a resource whose link write failed
(an orphan) never shows in the resources-created count. -/
theorem backfill_updated_eq_resources (o : BackfillOracle)
    (inds : List IndicatorRecord) :
    (add_resources_to_all_indicators o inds).1.updatedInd =
      (add_resources_to_all_indicators o inds).1.totalRes := by
  unfold add_resources_to_all_indicators
  by_cases h : inds = []
  · simp [h, passInit]
  · simp only [h, if_false]
    exact foldl_updated_totalRes o inds passInit rfl

/-- Oracle for the C6 counterexample: the resource listing always answers
with an empty success body, resource creation fails, links fail. -/
def oC6 : BackfillOracle :=
  ⟨fun _ => ServiceResp.ok [], fun _ => none, fun _ => false⟩

/-- Two indicators each holding a single ordinary (non-sentinel,
non-synthetic) resource reference. -/
def indsC6 : List IndicatorRecord := [⟨1, "a", ["ra"]⟩, ⟨2, "b", ["rb"]⟩]

/-- Counterexample to C6 as stated: in a single backfill pass over two
indicators whose existence checks both need the resource listing, the full
listing is fetched twice — once per indicator — not at most once; the code
issues the GET inside the per-indicator loop and memoizes nothing. -/
theorem listing_not_memoized_counterexample :
    (add_resources_to_all_indicators oC6 indsC6).1.listingCalls = 2 ∧
    ¬ (add_resources_to_all_indicators oC6 indsC6).1.listingCalls ≤ 1 := by
  decide

/-- C6 amended: within a single backfill pass the resource-service full
listing is fetched exactly once per indicator whose decision reaches the
membership-check branch (no memoization across indicators). -/
theorem backfill_listing_per_indicator (o : BackfillOracle)
    (inds : List IndicatorRecord) :
    (add_resources_to_all_indicators o inds).1.listingCalls =
      inds.countP (fun i => usesListing i.resources) := by
  unfold add_resources_to_all_indicators
  by_cases h : inds = []
  · simp [h, passInit]
  · simp only [h, if_false]
    rw [foldl_listingCalls o inds passInit]
    simp [passInit]

/-- C2: the per-indicator backfill decision.  An empty resources list
decides true; the sentinel singleton "string" decides true; a singleton
ending in "_resource" decides true; any other singleton decides true
exactly when the referenced id is absent from the resource listing, and
decides true on a failed existence check (fail open); when membership is
confirmed the decision is false and the indicator is left untouched — no
resource-creation call, no link write, the record unchanged. -/
theorem resource_backfill_decision (x : String) (l : List ResourceRecord)
    (resp : ServiceResp (List ResourceRecord)) (o : BackfillOracle) (st : PassState)
    (ind : IndicatorRecord) :
    should_create_new [] resp = true ∧
    should_create_new ["string"] resp = true ∧
    (strEndsWith x "_resource" = true → should_create_new [x] resp = true) ∧
    (x ≠ "string" → strEndsWith x "_resource" = false →
      ((should_create_new [x] (ServiceResp.ok l) = true ↔
          l.any (fun r => r.id == x) = false) ∧
        should_create_new [x] ServiceResp.err = true ∧
        (ind.resources = [x] → o.listing st.listingCalls = ServiceResp.ok l →
          l.any (fun r => r.id == x) = true →
          stepIndicator o st ind =
            { st with
              totalInd := st.totalInd + 1,
              listingCalls := st.listingCalls + 1,
              indicators := st.indicators ++ [ind] }))) := by
  refine ⟨rfl, by simp [should_create_new], ?_, ?_⟩
  · intro h
    by_cases hx : (x == "string") = true
    · simp [should_create_new, hx]
    · simp [should_create_new, hx, h]
  · intro hx hs
    have hxb : (x == "string") = false := beq_eq_false_iff_ne.mpr hx
    refine ⟨by simp [should_create_new, hxb, hs], by simp [should_create_new, hxb, hs], ?_⟩
    intro hres hlist hmem
    have hu : usesListing ind.resources = true := by
      rw [hres]
      simp [usesListing, hxb, hs]
    have hdec : should_create_new ind.resources (o.listing st.listingCalls) = false := by
      rw [hres, hlist]
      simp [should_create_new, hxb, hs, hmem]
    simp [stepIndicator, hdec, hu]

/-- Oracle for the C2 witness: the listing reports exactly the resource
"abc"; creation and linking would fail if ever called. -/
def oC2 : BackfillOracle :=
  ⟨fun _ => ServiceResp.ok [⟨"abc"⟩], fun _ => none, fun _ => false⟩

/-- Indicator for the C2 witness: a single ordinary resource reference. -/
def indC2 : IndicatorRecord := ⟨5, "i", ["abc"]⟩

/-- Witness for C2: an indicator whose sole resource reference "abc" is
confirmed present in the listing is skipped without any write. -/
theorem resource_backfill_decision_witness :
    ("abc" : String) ≠ "string" ∧ strEndsWith "abc" "_resource" = false ∧
    stepIndicator oC2 passInit indC2 =
      { passInit with totalInd := 1, listingCalls := 1, indicators := [indC2] } := by
  refine ⟨by decide, by decide, ?_⟩
  have h := (resource_backfill_decision "abc" [⟨"abc"⟩] ServiceResp.err oC2 passInit
    indC2).2.2.2 (by decide) (by decide)
  have h2 := h.2.2 rfl rfl (by decide)
  simpa [passInit] using h2

/-- C8: for an indicator that enters backfill, the updated-indicators
counter is incremented exactly when both the resource creation and the
subsequent link write succeed; when creation succeeds but the link write
fails, the indicator is not counted, the created resource is not linked to
the record (the orphan outcome), and each service call was attempted
exactly once — no retry. -/
theorem backfill_update_counting (o : BackfillOracle) (st : PassState)
    (ind : IndicatorRecord)
    (h : should_create_new ind.resources (o.listing st.listingCalls) = true) :
    (((stepIndicator o st ind).updatedInd = st.updatedInd + 1) ↔
      ((o.createRes st.createCalls).isSome ∧ o.linkOk st.linkCalls = true)) ∧
    (∀ rid, o.createRes st.createCalls = some rid → o.linkOk st.linkCalls = false →
      (stepIndicator o st ind).updatedInd = st.updatedInd ∧
      (stepIndicator o st ind).totalRes = st.totalRes ∧
      (stepIndicator o st ind).createCalls = st.createCalls + 1 ∧
      (stepIndicator o st ind).linkCalls = st.linkCalls + 1 ∧
      (stepIndicator o st ind).indicators = st.indicators ++ [ind]) := by
  constructor
  · cases hc : o.createRes st.createCalls with
    | none =>
      simp [stepIndicator, h, hc]
    | some rid =>
      by_cases hl : o.linkOk st.linkCalls
      · simp [stepIndicator, h, hc, hl]
      · simp [stepIndicator, h, hc, hl]
  · intro rid hc hl
    simp [stepIndicator, h, hc, hl]

/-- Oracle for the C8 witness: resource creation returns id "r1", the link
write fails. -/
def oC8 : BackfillOracle :=
  ⟨fun _ => ServiceResp.ok [], fun _ => some "r1", fun _ => false⟩

/-- Indicator for the C8 witness: no resources, so backfill is entered. -/
def indC8 : IndicatorRecord := ⟨1, "a", []⟩

/-- Witness for C8: creation succeeds, the link write fails, the indicator
is not counted as updated and each call happened exactly once. -/
theorem backfill_update_counting_witness :
    should_create_new indC8.resources (oC8.listing passInit.listingCalls) = true ∧
    (stepIndicator oC8 passInit indC8).updatedInd = passInit.updatedInd ∧
    (stepIndicator oC8 passInit indC8).createCalls = passInit.createCalls + 1 ∧
    (stepIndicator oC8 passInit indC8).linkCalls = passInit.linkCalls + 1 := by
  refine ⟨by decide, ?_⟩
  have h := (backfill_update_counting oC8 passInit indC8 (by decide)).2 "r1" rfl rfl
  exact ⟨h.1, h.2.2.1, h.2.2.2.1⟩

/-- C10: for an indicator holding two or more resource references, the
sentinel and synthetic-suffix singleton checks cannot apply: the decision
is exactly the membership test on the first entry (true on a failed check,
and the membership branch runs even when the first entry is the sentinel
itself); and when backfill then runs, the link write appends one more
resource id without removing any existing entry, so the resulting list has
one more element and is never back to the single-resource shape. -/
theorem multi_resource_backfill (r0 r1 : String) (rest : List String)
    (l : List ResourceRecord) (o : BackfillOracle) (st : PassState)
    (ind : IndicatorRecord) (rid : String) :
    (should_create_new (r0 :: r1 :: rest) (ServiceResp.ok l) =
      !(l.any (fun r => r.id == r0))) ∧
    (should_create_new (r0 :: r1 :: rest) ServiceResp.err = true) ∧
    (should_create_new ("string" :: r1 :: rest) (ServiceResp.ok l) =
      !(l.any (fun r => r.id == "string"))) ∧
    (ind.resources = r0 :: r1 :: rest →
      should_create_new ind.resources (o.listing st.listingCalls) = true →
      o.createRes st.createCalls = some rid →
      o.linkOk st.linkCalls = true →
      (stepIndicator o st ind).indicators =
        st.indicators ++ [{ ind with resources := ind.resources ++ [rid] }] ∧
      (ind.resources ++ [rid]).length = ind.resources.length + 1 ∧
      (∀ e, e ∈ ind.resources → e ∈ ind.resources ++ [rid]) ∧
      (ind.resources ++ [rid]).length ≠ 1) := by
  have hlen : ((r0 :: r1 :: rest).length == 1) = false := by
    simp
  refine ⟨by simp [should_create_new, hlen], by simp [should_create_new, hlen],
    by simp [should_create_new], ?_⟩
  intro hres hdec hc hl
  have hu : usesListing ind.resources = true := by
    rw [hres]
    simp [usesListing]
  refine ⟨by simp [stepIndicator, hdec, hc, hl, hu], by simp, fun e he => List.mem_append_left _ he, ?_⟩
  rw [hres]
  simp

/-- Oracle for the C10 witness: empty listing, creation returns "new",
link write succeeds. -/
def oC10 : BackfillOracle :=
  ⟨fun _ => ServiceResp.ok [], fun _ => some "new", fun _ => true⟩

/-- Indicator for the C10 witness: two resource references already. -/
def indC10 : IndicatorRecord := ⟨3, "i", ["x", "y"]⟩

/-- Witness for C10: the two-reference indicator is backfilled by
appending a third reference, keeping the existing entries. -/
theorem multi_resource_backfill_witness :
    indC10.resources = "x" :: "y" :: [] ∧
    (stepIndicator oC10 passInit indC10).indicators =
      passInit.indicators ++ [{ indC10 with resources := indC10.resources ++ ["new"] }] ∧
    (indC10.resources ++ ["new"]).length = indC10.resources.length + 1 := by
  refine ⟨rfl, ?_⟩
  have h := (multi_resource_backfill "x" "y" [] [] oC10 passInit indC10 "new").2.2.2
    rfl (by decide) rfl rfl
  exact ⟨h.1, h.2.1⟩
